import Mathlib

/-!
# Verification of the PackHero sample-intake pipeline

Shallow embedding of `scripts/organize_samples.py` (class `SampleOrganizer`).

Modelling decisions, all driven by the source:

* A file on disk is modelled as a `Candidate`: its basename, its byte
  content (`List Nat`), and three Booleans recording whether the three
  I/O operations performed on it by the pipeline succeed — the
  2-byte header read inside `is_pe_file` (line 60), the full read inside
  `get_file_hash` (lines 51-53), and the `shutil.copy2` call (line 116).
  A `False` flag models the corresponding Python call raising `OSError`.
* The SHA-256 digest is modelled by an arbitrary function
  `H : List Nat → String`; `hashlib.sha256` feeds the stream in 4096-byte
  chunks (`get_file_hash`, lines 50-54) and digests their concatenation,
  which `chunks4096`/`get_file_hash` reproduce.
* `self.stats` (lines 19-24) is `Stats`; the destination directory is the
  list of `(filename, content)` pairs produced by successful copies; the
  run-local `seen_hashes` set (line 83) is a `List String` used as a set.
* The per-file body of the loop at lines 92-123 is `processFile`; the try
  block catches every exception at the per-file boundary, so `processFile`
  is a total function returning the updated state and the file's `Outcome`.
-/

/-- The four ways the loop body at lines 92-123 can dispose of a file:
`rejected` = the `is_pe_file` test fails (lines 95-98); `errored` = an
exception during hashing or copying reaches the `except` clause
(lines 121-123); `duplicate` = digest already in `seen_hashes`
(lines 104-107); `accepted` = the file is copied (lines 109-119). -/
inductive Outcome where
  | rejected
  | errored
  | duplicate
  | accepted
deriving DecidableEq

/-- One file of the source directory, together with the fate of the three
I/O operations the pipeline performs on it: `headerReadOk` — the
`open`/`read(2)` inside `is_pe_file` succeeds; `hashReadOk` — the streamed
read inside `get_file_hash` succeeds; `copyOk` — `shutil.copy2` succeeds. -/
structure Candidate where
  name : String
  content : List Nat
  headerReadOk : Bool
  hashReadOk : Bool
  copyOk : Bool
deriving DecidableEq

/-- `self.stats` (lines 19-24): accepted count per label, duplicates, errors. -/
structure Stats where
  malware : Nat
  benign : Nat
  duplicates : Nat
  errors : Nat
deriving DecidableEq

/-- The `sample_type` argument: `'malware'` or `'benign'` (line 65). -/
inductive Label where
  | malware
  | benign
deriving DecidableEq

/-- The label's string, used in the destination filename (line 112). -/
def Label.str : Label → String
  | .malware => "malware"
  | .benign => "benign"

/-- `self.stats[sample_type] += 1` (line 119). -/
def Stats.incLabel (st : Stats) : Label → Stats
  | .malware => { st with malware := st.malware + 1 }
  | .benign => { st with benign := st.benign + 1 }

/-- `is_pe_file` (lines 56-63): read the first two bytes and compare with
`b'MZ'` (`0x4D 0x5A` = `77 90`); any exception while opening or reading is
caught by the bare `except` and yields `False`. -/
def is_pe_file (c : Candidate) : Bool :=
  c.headerReadOk && (c.content.take 2 == [77, 90])

/-- The 4096-byte chunking of `f.read(4096)` (line 52), written with a
structural fuel argument (the fuel is the number of bytes left, which
bounds the number of chunks). -/
def chunksAux : Nat → List Nat → List (List Nat)
  | _, [] => []
  | 0, bs => [bs]
  | fuel + 1, b :: bs => ((b :: bs).take 4096) :: chunksAux fuel ((b :: bs).drop 4096)

/-- The chunk sequence `get_file_hash` feeds to `sha256.update`. -/
def chunks4096 (bs : List Nat) : List (List Nat) :=
  chunksAux bs.length bs

/-- `get_file_hash` (lines 48-54): stream the file in 4096-byte chunks into
the hash object and return the digest of everything fed, i.e. of the
concatenation of the chunks. `H` models `sha256(...).hexdigest()`. -/
def get_file_hash (H : List Nat → String) (content : List Nat) : String :=
  H (chunks4096 content).flatten

/-- The running state of one `organize_samples` call: the shared statistics,
the call-local `seen_hashes` set (line 83), and the files materialised in
`original/<label>` so far, newest first. -/
structure IntakeState where
  stats : Stats
  seen : List String
  dest : List (String × List Nat)
deriving DecidableEq

/-- The destination filename `f"{sample_type}_{file_hash[:16]}_{file_path.name}"`
(line 112). -/
def destName (label : Label) (h : String) (orig : String) : String :=
  label.str ++ "_" ++ h.take 16 ++ "_" ++ orig

/-- The loop body, lines 92-123.  Order of the tests follows the source:
PE validation (line 95), hashing (line 101, an unreadable file raises and
lands in the `except` clause), duplicate test (line 104), insertion into
`seen_hashes` (line 109, before the copy), copy (line 116, a failing copy
raises and lands in the `except` clause with the digest already recorded),
counter update (line 119). -/
def processFile (H : List Nat → String) (label : Label) (s : IntakeState)
    (c : Candidate) : IntakeState × Outcome :=
  if is_pe_file c = false then
    ({ s with stats := { s.stats with errors := s.stats.errors + 1 } }, .rejected)
  else if c.hashReadOk = false then
    ({ s with stats := { s.stats with errors := s.stats.errors + 1 } }, .errored)
  else
    let h := get_file_hash H c.content
    if h ∈ s.seen then
      ({ s with stats := { s.stats with duplicates := s.stats.duplicates + 1 } }, .duplicate)
    else
      if c.copyOk = false then
        ({ s with seen := h :: s.seen,
                  stats := { s.stats with errors := s.stats.errors + 1 } }, .errored)
      else
        ({ s with seen := h :: s.seen,
                  stats := s.stats.incLabel label,
                  dest := (destName label h c.name, c.content) :: s.dest }, .accepted)

/-- The `for` loop of lines 92-123 over the discovered `.exe` files. -/
def runIntake (H : List Nat → String) (label : Label) :
    IntakeState → List Candidate → IntakeState
  | s, [] => s
  | s, c :: cs => runIntake H label (processFile H label s c).1 cs

/-- The outcome of each file of the loop, in processing order. -/
def runOutcomes (H : List Nat → String) (label : Label) :
    IntakeState → List Candidate → List Outcome
  | _, [] => []
  | s, c :: cs => (processFile H label s c).2 :: runOutcomes H label (processFile H label s c).1 cs

/-- How many files of content `v` receive outcome `o` during the run. -/
def countGroupOutcome (H : List Nat → String) (label : Label) (v : List Nat)
    (o : Outcome) : IntakeState → List Candidate → Nat
  | _, [] => 0
  | s, c :: cs =>
    (if c.content = v ∧ (processFile H label s c).2 = o then 1 else 0)
      + countGroupOutcome H label v o (processFile H label s c).1 cs

/-- Number of destination files holding byte content `v`. -/
def destCountL (v : List Nat) (l : List (String × List Nat)) : Nat :=
  (l.filter (fun q => q.2 == v)).length

/-- The externally visible state of the organizer: `self.stats` plus the
files under `original/`. -/
structure OrgState where
  stats : Stats
  dest : List (String × List Nat)
deriving DecidableEq

/-- `organize_samples` (lines 65-123): missing source directory returns with
no work (lines 76-78); the `seen_hashes` set is created afresh (line 83);
`exe_files` is the `glob('*.exe')` result, in unspecified order (line 86);
an empty candidate list returns with no work (lines 88-90); otherwise the
per-file loop runs over every candidate. -/
def organize_samples (H : List Nat → String) (sample_type : Label)
    (sourceExists : Bool) (exe_files : List Candidate) (os : OrgState) : OrgState :=
  if sourceExists = false then os
  else if exe_files.isEmpty then os
  else
    let r := runIntake H sample_type ⟨os.stats, [], os.dest⟩ exe_files
    ⟨r.stats, r.dest⟩

/-- A concrete, injective-on-small-inputs stand-in digest used only to
instantiate witnesses. -/
def Hc : List Nat → String :=
  fun bs => toString bs

/-- Feeding the 4096-byte chunks one by one digests exactly the full content. -/
theorem join_chunksAux : ∀ (fuel : Nat) (bs : List Nat), bs.length ≤ fuel →
    (chunksAux fuel bs).flatten = bs := by
  intro fuel
  induction fuel with
  | zero =>
    intro bs hbs
    cases bs with
    | nil => simp [chunksAux]
    | cons b bs => simp at hbs
  | succ n ih =>
    intro bs hbs
    cases bs with
    | nil => simp [chunksAux]
    | cons b bs =>
      simp only [chunksAux, List.flatten_cons]
      rw [ih ((b :: bs).drop 4096)
        (by simp only [List.length_drop, List.length_cons]
            simp only [List.length_cons] at hbs
            omega)]
      exact List.take_append_drop _ _

/-- The streamed digest equals the digest of the whole content. -/
theorem get_file_hash_eq (H : List Nat → String) (content : List Nat) :
    get_file_hash H content = H content := by
  unfold get_file_hash chunks4096
  rw [join_chunksAux content.length content (Nat.le_refl _)]

/-! ## Branch lemmas for `processFile` -/

/-- Failing the PE check lands in the `continue` of line 98: only the error
counter moves. -/
theorem processFile_rejected (H : List Nat → String) (label : Label)
    (s : IntakeState) (c : Candidate) (h : is_pe_file c = false) :
    processFile H label s c
      = ({ s with stats := { s.stats with errors := s.stats.errors + 1 } }, .rejected) := by
  simp [processFile, h]

/-- A read failure inside `get_file_hash` raises, and the `except` of
line 121 counts an error. -/
theorem processFile_hashfail (H : List Nat → String) (label : Label)
    (s : IntakeState) (c : Candidate) (h1 : is_pe_file c = true)
    (h2 : c.hashReadOk = false) :
    processFile H label s c
      = ({ s with stats := { s.stats with errors := s.stats.errors + 1 } }, .errored) := by
  simp [processFile, h1, h2]

/-- A digest already in `seen_hashes` lands in lines 104-107: only the
duplicate counter moves. -/
theorem processFile_dup (H : List Nat → String) (label : Label)
    (s : IntakeState) (c : Candidate) (h1 : is_pe_file c = true)
    (h2 : c.hashReadOk = true) (h3 : get_file_hash H c.content ∈ s.seen) :
    processFile H label s c
      = ({ s with stats := { s.stats with duplicates := s.stats.duplicates + 1 } }, .duplicate) := by
  simp [processFile, h1, h2, h3]

/-- A failing `shutil.copy2` raises after line 109 has already recorded the
digest: the digest stays in `seen_hashes`, the error counter moves, nothing
reaches the destination. -/
theorem processFile_copyfail (H : List Nat → String) (label : Label)
    (s : IntakeState) (c : Candidate) (h1 : is_pe_file c = true)
    (h2 : c.hashReadOk = true) (h3 : get_file_hash H c.content ∉ s.seen)
    (h4 : c.copyOk = false) :
    processFile H label s c
      = ({ s with seen := get_file_hash H c.content :: s.seen,
                  stats := { s.stats with errors := s.stats.errors + 1 } }, .errored) := by
  simp [processFile, h1, h2, h3, h4]

/-- The accepting path, lines 109-119: digest recorded, file copied under
its hash-prefixed name, label counter bumped. -/
theorem processFile_accepted (H : List Nat → String) (label : Label)
    (s : IntakeState) (c : Candidate) (h1 : is_pe_file c = true)
    (h2 : c.hashReadOk = true) (h3 : get_file_hash H c.content ∉ s.seen)
    (h4 : c.copyOk = true) :
    processFile H label s c
      = ({ s with seen := get_file_hash H c.content :: s.seen,
                  stats := s.stats.incLabel label,
                  dest := (destName label (get_file_hash H c.content) c.name, c.content)
                            :: s.dest }, .accepted) := by
  simp [processFile, h1, h2, h3, h4]

/-! ## C3: files failing the signature check -/

/-- C3: a candidate whose first two bytes are not `b'MZ'` is never copied
(the destination is untouched), the error counter is incremented for it,
and the duplicate counter is not. -/
theorem C3_invalid_signature_error (H : List Nat → String) (label : Label)
    (s : IntakeState) (c : Candidate) (hbad : ¬ c.content.take 2 = [77, 90]) :
    (processFile H label s c).1.dest = s.dest
    ∧ (processFile H label s c).1.stats.errors = s.stats.errors + 1
    ∧ (processFile H label s c).1.stats.duplicates = s.stats.duplicates
    ∧ (processFile H label s c).2 = Outcome.rejected := by
  have hpe : is_pe_file c = false := by
    simp [is_pe_file, hbad]
  rw [processFile_rejected H label s c hpe]
  exact ⟨rfl, rfl, rfl, rfl⟩

/-- C3 witness: a concrete file starting `0x00 0x00`. -/
theorem C3_invalid_signature_error_witness :
    ¬ ([0, 0, 3] : List Nat).take 2 = [77, 90]
    ∧ ((processFile Hc Label.malware ⟨⟨0, 0, 0, 0⟩, [], []⟩
          ⟨"bad.exe", [0, 0, 3], true, true, true⟩).1.dest = []
        ∧ (processFile Hc Label.malware ⟨⟨0, 0, 0, 0⟩, [], []⟩
            ⟨"bad.exe", [0, 0, 3], true, true, true⟩).1.stats.errors = 0 + 1
        ∧ (processFile Hc Label.malware ⟨⟨0, 0, 0, 0⟩, [], []⟩
            ⟨"bad.exe", [0, 0, 3], true, true, true⟩).1.stats.duplicates = 0
        ∧ (processFile Hc Label.malware ⟨⟨0, 0, 0, 0⟩, [], []⟩
            ⟨"bad.exe", [0, 0, 3], true, true, true⟩).2 = Outcome.rejected) :=
  ⟨by decide,
   C3_invalid_signature_error Hc Label.malware ⟨⟨0, 0, 0, 0⟩, [], []⟩
     ⟨"bad.exe", [0, 0, 3], true, true, true⟩ (by decide)⟩

/-! ## C7: the structural validator soft-fails -/

/-- C7: whenever the open/read inside `is_pe_file` fails, the validator
returns `false`; being a total function, it never propagates an exception
to the loop (the bare `except: return False` of lines 62-63). -/
theorem C7_is_pe_file_softfail (c : Candidate) (hfail : c.headerReadOk = false) :
    is_pe_file c = false := by
  simp [is_pe_file, hfail]

/-- C7 witness: an unreadable file whose content even starts with `MZ`. -/
theorem C7_is_pe_file_softfail_witness :
    (Candidate.mk "gone.exe" [77, 90] false true true).headerReadOk = false
    ∧ is_pe_file (Candidate.mk "gone.exe" [77, 90] false true true) = false :=
  ⟨by decide, C7_is_pe_file_softfail (Candidate.mk "gone.exe" [77, 90] false true true) (by decide)⟩

/-! ## C2: outcome taxonomy of a processed file -/

/-- C2 counterexample: a valid, readable, fresh file whose `shutil.copy2`
fails is neither rejected (its signature check passed), nor a duplicate
(its digest was fresh), nor accepted (it was not copied: the destination
stayed empty), contradicting the claimed three-way taxonomy. -/
theorem C2_counterexample_copy_failure :
    (processFile Hc Label.malware ⟨⟨0, 0, 0, 0⟩, [], []⟩
        ⟨"a.exe", [77, 90, 1], true, true, false⟩).2 ≠ Outcome.rejected
    ∧ (processFile Hc Label.malware ⟨⟨0, 0, 0, 0⟩, [], []⟩
        ⟨"a.exe", [77, 90, 1], true, true, false⟩).2 ≠ Outcome.duplicate
    ∧ (processFile Hc Label.malware ⟨⟨0, 0, 0, 0⟩, [], []⟩
        ⟨"a.exe", [77, 90, 1], true, true, false⟩).2 ≠ Outcome.accepted
    ∧ (processFile Hc Label.malware ⟨⟨0, 0, 0, 0⟩, [], []⟩
        ⟨"a.exe", [77, 90, 1], true, true, false⟩).1.dest = [] := by
  refine ⟨?_, ?_, ?_, ?_⟩ <;> decide

/-- C2 amended: a processed file has exactly one of *four* mutually
exclusive outcomes — rejected (invalid structural signature), errored
(exception caught during hashing or copying), duplicate (digest already
seen in this call), or accepted (copied to the destination) — each
characterised by the stated condition; in particular a file is accepted
exactly when the destination changed. -/
theorem C2_amended_outcome_taxonomy (H : List Nat → String) (label : Label)
    (s : IntakeState) (c : Candidate) :
    ((processFile H label s c).2 = Outcome.rejected
      ∨ (processFile H label s c).2 = Outcome.errored
      ∨ (processFile H label s c).2 = Outcome.duplicate
      ∨ (processFile H label s c).2 = Outcome.accepted)
    ∧ ((processFile H label s c).2 = Outcome.rejected ↔ is_pe_file c = false)
    ∧ ((processFile H label s c).2 = Outcome.duplicate
        ↔ (is_pe_file c = true ∧ c.hashReadOk = true
            ∧ get_file_hash H c.content ∈ s.seen))
    ∧ ((processFile H label s c).2 = Outcome.accepted
        ↔ (is_pe_file c = true ∧ c.hashReadOk = true
            ∧ get_file_hash H c.content ∉ s.seen ∧ c.copyOk = true))
    ∧ ((processFile H label s c).2 = Outcome.errored
        ↔ (is_pe_file c = true
            ∧ (c.hashReadOk = false
                ∨ (get_file_hash H c.content ∉ s.seen ∧ c.copyOk = false))))
    ∧ ((processFile H label s c).2 = Outcome.accepted
        ↔ (processFile H label s c).1.dest ≠ s.dest) := by
  by_cases h1 : is_pe_file c = true
  · by_cases h2 : c.hashReadOk = true
    · by_cases h3 : get_file_hash H c.content ∈ s.seen
      · rw [processFile_dup H label s c h1 h2 h3]
        simp [h1, h2, h3]
      · by_cases h4 : c.copyOk = true
        · rw [processFile_accepted H label s c h1 h2 h3 h4]
          simp [h1, h2, h3, h4]
        · rw [processFile_copyfail H label s c h1 h2 h3 (by revert h4; cases c.copyOk <;> simp)]
          simp [h1, h2, h3]
          revert h4; cases c.copyOk <;> simp
    · rw [processFile_hashfail H label s c h1 (by revert h2; cases c.hashReadOk <;> simp)]
      simp [h1]
      revert h2; cases c.hashReadOk <;> simp
  · rw [processFile_rejected H label s c (by revert h1; cases is_pe_file c <;> simp)]
    simp
    revert h1; cases is_pe_file c <;> simp

/-! ## C5: per-file failures are caught and the run continues -/

/-- C5: an exception while hashing (unreadable content) or while copying
(fresh digest but the copy fails) is absorbed at the per-file boundary:
the error counter moves by exactly one and the file's outcome is
`errored`; and the loop always processes every candidate — the run yields
one outcome per discovered file, whatever the failures. -/
theorem C5_perfile_failure_caught (H : List Nat → String) (label : Label) :
    (∀ (s : IntakeState) (c : Candidate), is_pe_file c = true →
      (c.hashReadOk = false
          ∨ (get_file_hash H c.content ∉ s.seen ∧ c.copyOk = false)) →
      (processFile H label s c).1.stats.errors = s.stats.errors + 1
        ∧ (processFile H label s c).2 = Outcome.errored)
    ∧ (∀ (s : IntakeState) (files : List Candidate),
        (runOutcomes H label s files).length = files.length) := by
  constructor
  · intro s c h1 h2
    rcases h2 with h2 | ⟨h3, h4⟩
    · rw [processFile_hashfail H label s c h1 h2]
      exact ⟨rfl, rfl⟩
    · rcases hval : c.hashReadOk with _ | _
      · rw [processFile_hashfail H label s c h1 hval]
        exact ⟨rfl, rfl⟩
      · rw [processFile_copyfail H label s c h1 hval h3 h4]
        exact ⟨rfl, rfl⟩
  · intro s files
    induction files generalizing s with
    | nil => rfl
    | cons c cs ih => simp [runOutcomes, ih]

/-- C5 witness: a readable file whose copy fails, inside a two-file run
that still produces two outcomes. -/
theorem C5_perfile_failure_caught_witness :
    is_pe_file (Candidate.mk "a.exe" [77, 90, 1] true true false) = true
    ∧ ((processFile Hc Label.malware ⟨⟨0, 0, 0, 0⟩, [], []⟩
          (Candidate.mk "a.exe" [77, 90, 1] true true false)).1.stats.errors = 0 + 1
        ∧ (processFile Hc Label.malware ⟨⟨0, 0, 0, 0⟩, [], []⟩
            (Candidate.mk "a.exe" [77, 90, 1] true true false)).2 = Outcome.errored)
    ∧ (runOutcomes Hc Label.malware ⟨⟨0, 0, 0, 0⟩, [], []⟩
        [Candidate.mk "a.exe" [77, 90, 1] true true false,
         Candidate.mk "b.exe" [77, 90, 2] true true true]).length
      = [Candidate.mk "a.exe" [77, 90, 1] true true false,
         Candidate.mk "b.exe" [77, 90, 2] true true true].length :=
  ⟨by decide,
   (C5_perfile_failure_caught Hc Label.malware).1 ⟨⟨0, 0, 0, 0⟩, [], []⟩
     (Candidate.mk "a.exe" [77, 90, 1] true true false) (by decide)
     (Or.inr ⟨by decide, by decide⟩),
   (C5_perfile_failure_caught Hc Label.malware).2 ⟨⟨0, 0, 0, 0⟩, [], []⟩ _⟩

/-! ## Monotonicity and locality of one loop step -/

/-- `seen_hashes` only ever grows during the loop. -/
theorem seen_mono_processFile (H : List Nat → String) (label : Label)
    (s : IntakeState) (c : Candidate) (d : String) (hd : d ∈ s.seen) :
    d ∈ (processFile H label s c).1.seen := by
  rcases h1 : is_pe_file c with _ | _
  · rw [processFile_rejected H label s c h1]; exact hd
  · rcases h2 : c.hashReadOk with _ | _
    · rw [processFile_hashfail H label s c h1 h2]; exact hd
    · by_cases h3 : get_file_hash H c.content ∈ s.seen
      · rw [processFile_dup H label s c h1 h2 h3]; exact hd
      · rcases h4 : c.copyOk with _ | _
        · rw [processFile_copyfail H label s c h1 h2 h3 h4]
          exact List.mem_cons_of_mem _ hd
        · rw [processFile_accepted H label s c h1 h2 h3 h4]
          exact List.mem_cons_of_mem _ hd

/-- The only digest one step can add to `seen_hashes` is the processed
file's own digest (line 109). -/
theorem seen_processFile_cases (H : List Nat → String) (label : Label)
    (s : IntakeState) (c : Candidate) (d : String)
    (hd : d ∈ (processFile H label s c).1.seen) :
    d ∈ s.seen ∨ d = get_file_hash H c.content := by
  rcases h1 : is_pe_file c with _ | _
  · rw [processFile_rejected H label s c h1] at hd; exact Or.inl hd
  · rcases h2 : c.hashReadOk with _ | _
    · rw [processFile_hashfail H label s c h1 h2] at hd; exact Or.inl hd
    · by_cases h3 : get_file_hash H c.content ∈ s.seen
      · rw [processFile_dup H label s c h1 h2 h3] at hd; exact Or.inl hd
      · rcases h4 : c.copyOk with _ | _
        · rw [processFile_copyfail H label s c h1 h2 h3 h4] at hd
          rcases List.mem_cons.mp hd with h | h
          · exact Or.inr h
          · exact Or.inl h
        · rw [processFile_accepted H label s c h1 h2 h3 h4] at hd
          rcases List.mem_cons.mp hd with h | h
          · exact Or.inr h
          · exact Or.inl h

/-- A step on a file whose content differs from `v` never changes the
number of destination files with content `v`. -/
theorem destCountL_processFile_ne (H : List Nat → String) (label : Label)
    (s : IntakeState) (c : Candidate) (v : List Nat) (hne : ¬ c.content = v) :
    destCountL v (processFile H label s c).1.dest = destCountL v s.dest := by
  have hcb : (c.content == v) = false := by simp [hne]
  rcases h1 : is_pe_file c with _ | _
  · rw [processFile_rejected H label s c h1]
  · rcases h2 : c.hashReadOk with _ | _
    · rw [processFile_hashfail H label s c h1 h2]
    · by_cases h3 : get_file_hash H c.content ∈ s.seen
      · rw [processFile_dup H label s c h1 h2 h3]
      · rcases h4 : c.copyOk with _ | _
        · rw [processFile_copyfail H label s c h1 h2 h3 h4]
        · rw [processFile_accepted H label s c h1 h2 h3 h4]
          simp [destCountL, hcb]

/-! ## Counting the fate of one content group -/

/-- Fate of the first member of a content group whose digest is fresh:
one acceptance if its copy succeeds, otherwise nothing accepted. -/
def groupAcc : List Candidate → Nat
  | [] => 0
  | c :: _ => if c.copyOk then 1 else 0

/-- One copy-failure error for the head of the group when its copy fails. -/
def groupErr : List Candidate → Nat
  | [] => 0
  | c :: _ => if c.copyOk then 0 else 1

/-- Once the digest of content `v` is in `seen_hashes`, every remaining
valid readable candidate with content `v` is counted as a duplicate —
none is accepted, none errors, and the destination gains no file with
content `v`. -/
theorem run_group_seen (H : List Nat → String) (label : Label) (v : List Nat) :
    ∀ (files : List Candidate) (s : IntakeState),
    get_file_hash H v ∈ s.seen →
    (∀ c ∈ files, c.content = v → is_pe_file c = true ∧ c.hashReadOk = true) →
    countGroupOutcome H label v Outcome.accepted s files = 0
    ∧ countGroupOutcome H label v Outcome.errored s files = 0
    ∧ countGroupOutcome H label v Outcome.duplicate s files
        = (files.filter (fun c => c.content == v)).length
    ∧ destCountL v (runIntake H label s files).dest = destCountL v s.dest := by
  intro files
  induction files with
  | nil =>
    intro s hseen hgrp
    exact ⟨rfl, rfl, rfl, rfl⟩
  | cons c cs ih =>
    intro s hseen hgrp
    have hgrp' : ∀ c' ∈ cs, c'.content = v → is_pe_file c' = true ∧ c'.hashReadOk = true :=
      fun c' hc' hv => hgrp c' (List.mem_cons_of_mem _ hc') hv
    by_cases hc : c.content = v
    · obtain ⟨h1, h2⟩ := hgrp c (List.mem_cons_self c cs) hc
      have h3 : get_file_hash H c.content ∈ s.seen := by rw [hc]; exact hseen
      have hstep := processFile_dup H label s c h1 h2 h3
      have hcb : (c.content == v) = true := by simp [hc]
      obtain ⟨ihA, ihE, ihD, ihDest⟩ :=
        ih { s with stats := { s.stats with duplicates := s.stats.duplicates + 1 } } hseen hgrp'
      refine ⟨?_, ?_, ?_, ?_⟩
      · simp only [countGroupOutcome, hstep]
        simp only [ihA]
        simp
      · simp only [countGroupOutcome, hstep]
        simp only [ihE]
        simp
      · simp only [countGroupOutcome, hstep]
        simp only [ihD, List.filter_cons, hcb]
        simp [hc]
        omega
      · simp only [runIntake, hstep]
        exact ihDest
    · have hseen' : get_file_hash H v ∈ (processFile H label s c).1.seen :=
        seen_mono_processFile H label s c _ hseen
      have hcb : (c.content == v) = false := by simp [hc]
      obtain ⟨ihA, ihE, ihD, ihDest⟩ := ih (processFile H label s c).1 hseen' hgrp'
      refine ⟨?_, ?_, ?_, ?_⟩
      · simp only [countGroupOutcome]
        simp [hc, ihA]
      · simp only [countGroupOutcome]
        simp [hc, ihE]
      · simp only [countGroupOutcome, List.filter_cons, hcb]
        simp [hc, ihD]
      · simp only [runIntake]
        rw [ihDest, destCountL_processFile_ne H label s c v hc]

/-- When the digest of content `v` is still fresh, the first group member
is accepted when its copy succeeds (and errors when it fails, the digest
being recorded at line 109 either way), and every later group member is a
duplicate; exactly `groupAcc` copies of `v` reach the destination. -/
theorem run_group_fresh (H : List Nat → String) (label : Label) (v : List Nat) :
    ∀ (files : List Candidate) (s : IntakeState),
    get_file_hash H v ∉ s.seen →
    (∀ c ∈ files, c.content = v → is_pe_file c = true ∧ c.hashReadOk = true) →
    (∀ c ∈ files, get_file_hash H c.content = get_file_hash H v → c.content = v) →
    countGroupOutcome H label v Outcome.accepted s files
        = groupAcc (files.filter (fun c => c.content == v))
    ∧ countGroupOutcome H label v Outcome.errored s files
        = groupErr (files.filter (fun c => c.content == v))
    ∧ countGroupOutcome H label v Outcome.duplicate s files
        = (files.filter (fun c => c.content == v)).length - 1
    ∧ destCountL v (runIntake H label s files).dest
        = destCountL v s.dest + groupAcc (files.filter (fun c => c.content == v)) := by
  intro files
  induction files with
  | nil =>
    intro s hfresh hgrp hinj
    exact ⟨rfl, rfl, rfl, rfl⟩
  | cons c cs ih =>
    intro s hfresh hgrp hinj
    have hgrp' : ∀ c' ∈ cs, c'.content = v → is_pe_file c' = true ∧ c'.hashReadOk = true :=
      fun c' hc' hv => hgrp c' (List.mem_cons_of_mem _ hc') hv
    have hinj' : ∀ c' ∈ cs, get_file_hash H c'.content = get_file_hash H v → c'.content = v :=
      fun c' hc' hv => hinj c' (List.mem_cons_of_mem _ hc') hv
    by_cases hc : c.content = v
    · obtain ⟨h1, h2⟩ := hgrp c (List.mem_cons_self c cs) hc
      have h3 : get_file_hash H c.content ∉ s.seen := by rw [hc]; exact hfresh
      have hcb : (c.content == v) = true := by simp [hc]
      rcases h4 : c.copyOk with _ | _
      · -- the head's copy fails: errored, digest recorded anyway
        have hstep := processFile_copyfail H label s c h1 h2 h3 h4
        have hseen1 : get_file_hash H v ∈
            ({ s with seen := get_file_hash H c.content :: s.seen,
                      stats := { s.stats with errors := s.stats.errors + 1 } } : IntakeState).seen := by
          show get_file_hash H v ∈ get_file_hash H c.content :: s.seen
          rw [hc]
          exact List.mem_cons_self _ _
        obtain ⟨ihA, ihE, ihD, ihDest⟩ :=
          run_group_seen H label v cs _ hseen1 hgrp'
        refine ⟨?_, ?_, ?_, ?_⟩
        · simp only [countGroupOutcome, hstep]
          simp only [ihA, List.filter_cons, hcb]
          simp [groupAcc, h4]
        · simp only [countGroupOutcome, hstep]
          simp only [ihE, List.filter_cons, hcb]
          simp [groupErr, h4, hc]
        · simp only [countGroupOutcome, hstep]
          simp only [ihD, List.filter_cons, hcb]
          simp [hc]
        · simp only [runIntake, hstep]
          rw [ihDest]
          simp only [List.filter_cons, hcb]
          simp [groupAcc, h4, destCountL]
      · -- the head's copy succeeds: accepted
        have hstep := processFile_accepted H label s c h1 h2 h3 h4
        have hseen1 : get_file_hash H v ∈
            ({ s with seen := get_file_hash H c.content :: s.seen,
                      stats := s.stats.incLabel label,
                      dest := (destName label (get_file_hash H c.content) c.name, c.content)
                                :: s.dest } : IntakeState).seen := by
          show get_file_hash H v ∈ get_file_hash H c.content :: s.seen
          rw [hc]
          exact List.mem_cons_self _ _
        obtain ⟨ihA, ihE, ihD, ihDest⟩ :=
          run_group_seen H label v cs _ hseen1 hgrp'
        refine ⟨?_, ?_, ?_, ?_⟩
        · simp only [countGroupOutcome, hstep]
          simp only [ihA, List.filter_cons, hcb]
          simp [groupAcc, h4, hc]
        · simp only [countGroupOutcome, hstep]
          simp only [ihE, List.filter_cons, hcb]
          simp [groupErr, h4]
        · simp only [countGroupOutcome, hstep]
          simp only [ihD, List.filter_cons, hcb]
          simp [hc]
        · simp only [runIntake, hstep]
          rw [ihDest]
          simp only [List.filter_cons, hcb]
          simp only [destCountL, List.filter_cons]
          have : ((destName label (get_file_hash H c.content) c.name, c.content).2 == v) = true := by
            simp [hc]
          simp [this, groupAcc, h4, hc]
    · have hcb : (c.content == v) = false := by simp [hc]
      have hfresh' : get_file_hash H v ∉ (processFile H label s c).1.seen := by
        intro hmem
        rcases seen_processFile_cases H label s c _ hmem with h | h
        · exact hfresh h
        · exact hc (hinj c (List.mem_cons_self c cs) h.symm)
      obtain ⟨ihA, ihE, ihD, ihDest⟩ := ih (processFile H label s c).1 hfresh' hgrp' hinj'
      refine ⟨?_, ?_, ?_, ?_⟩
      · simp only [countGroupOutcome, List.filter_cons, hcb]
        simp [hc, ihA]
      · simp only [countGroupOutcome, List.filter_cons, hcb]
        simp [hc, ihE]
      · simp only [countGroupOutcome, List.filter_cons, hcb]
        simp [hc, ihD]
      · simp only [runIntake, List.filter_cons, hcb]
        rw [ihDest, destCountL_processFile_ne H label s c v hc]
        simp

/-! ## C1: content-identical groups deduplicate to one accepted file -/

/-- C1: in a single `organize_samples` call over candidates `files`, for any
byte content `v` whose group (all candidates with content `v`) is nonempty,
consists of files passing the signature check and processed without I/O
failure, and whose digests do not collide with other contents, exactly one
group member is accepted and copied to the destination and every other
member is counted as a duplicate — for every enumeration order, since
`files` is arbitrary. -/
theorem C1_group_dedup_exactly_one (H : List Nat → String) (label : Label)
    (stats : Stats) (files : List Candidate) (v : List Nat)
    (hgrp : ∀ c ∈ files, c.content = v →
      is_pe_file c = true ∧ c.hashReadOk = true ∧ c.copyOk = true)
    (hinj : ∀ c ∈ files, get_file_hash H c.content = get_file_hash H v → c.content = v)
    (hne : 1 ≤ (files.filter (fun c => c.content == v)).length) :
    countGroupOutcome H label v Outcome.accepted ⟨stats, [], []⟩ files = 1
    ∧ countGroupOutcome H label v Outcome.duplicate ⟨stats, [], []⟩ files
        = (files.filter (fun c => c.content == v)).length - 1
    ∧ destCountL v (organize_samples H label true files ⟨stats, []⟩).dest = 1 := by
  have hgrpw : ∀ c ∈ files, c.content = v → is_pe_file c = true ∧ c.hashReadOk = true :=
    fun c hc hv => ⟨(hgrp c hc hv).1, (hgrp c hc hv).2.1⟩
  have hfresh : get_file_hash H v ∉ (([] : List String)) := List.not_mem_nil _
  obtain ⟨hA, hE, hD, hDest⟩ :=
    run_group_fresh H label v files ⟨stats, [], []⟩ hfresh hgrpw hinj
  rcases hg : files.filter (fun c => c.content == v) with _ | ⟨c₀, g'⟩
  · rw [hg] at hne
    simp at hne
  · have hc₀mem : c₀ ∈ files.filter (fun c => c.content == v) := by
      rw [hg]
      exact List.mem_cons_self _ _
    have hc₀ := List.mem_filter.mp hc₀mem
    have hc₀v : c₀.content = v := by simpa using hc₀.2
    have hcopy : c₀.copyOk = true := (hgrp c₀ hc₀.1 hc₀v).2.2
    have hga : groupAcc (files.filter (fun c => c.content == v)) = 1 := by
      rw [hg]
      simp [groupAcc, hcopy]
    have hfe : files.isEmpty = false := by
      cases files with
      | nil => simp at hg
      | cons a l => rfl
    refine ⟨?_, ?_, ?_⟩
    · rw [hA, hga]
    · exact hD
    · simp only [organize_samples, hfe]
      simp only [Bool.false_eq_true, if_false, Bool.true_eq_false]
      rw [hDest, hga]
      rfl

/-- C1 witness: two byte-identical valid files and one unrelated valid file,
in one call: one acceptance, one duplicate, one copy of the content. -/
theorem C1_group_dedup_exactly_one_witness :
    (∀ c ∈ [Candidate.mk "a.exe" [77, 90, 5] true true true,
            Candidate.mk "b.exe" [77, 90, 5] true true true,
            Candidate.mk "c.exe" [77, 90, 6] true true true], c.content = [77, 90, 5] →
      is_pe_file c = true ∧ c.hashReadOk = true ∧ c.copyOk = true)
    ∧ (∀ c ∈ [Candidate.mk "a.exe" [77, 90, 5] true true true,
              Candidate.mk "b.exe" [77, 90, 5] true true true,
              Candidate.mk "c.exe" [77, 90, 6] true true true],
        get_file_hash Hc c.content = get_file_hash Hc [77, 90, 5] → c.content = [77, 90, 5])
    ∧ (countGroupOutcome Hc Label.malware [77, 90, 5] Outcome.accepted ⟨⟨0, 0, 0, 0⟩, [], []⟩
        [Candidate.mk "a.exe" [77, 90, 5] true true true,
         Candidate.mk "b.exe" [77, 90, 5] true true true,
         Candidate.mk "c.exe" [77, 90, 6] true true true] = 1
      ∧ countGroupOutcome Hc Label.malware [77, 90, 5] Outcome.duplicate ⟨⟨0, 0, 0, 0⟩, [], []⟩
          [Candidate.mk "a.exe" [77, 90, 5] true true true,
           Candidate.mk "b.exe" [77, 90, 5] true true true,
           Candidate.mk "c.exe" [77, 90, 6] true true true]
        = ([Candidate.mk "a.exe" [77, 90, 5] true true true,
            Candidate.mk "b.exe" [77, 90, 5] true true true,
            Candidate.mk "c.exe" [77, 90, 6] true true true].filter
              (fun c => c.content == [77, 90, 5])).length - 1
      ∧ destCountL [77, 90, 5] (organize_samples Hc Label.malware true
          [Candidate.mk "a.exe" [77, 90, 5] true true true,
           Candidate.mk "b.exe" [77, 90, 5] true true true,
           Candidate.mk "c.exe" [77, 90, 6] true true true] ⟨⟨0, 0, 0, 0⟩, []⟩).dest = 1) :=
  ⟨by decide, by decide,
   C1_group_dedup_exactly_one Hc Label.malware ⟨0, 0, 0, 0⟩
     [Candidate.mk "a.exe" [77, 90, 5] true true true,
      Candidate.mk "b.exe" [77, 90, 5] true true true,
      Candidate.mk "c.exe" [77, 90, 6] true true true] [77, 90, 5]
     (by decide) (by decide) (by decide)⟩

/-! ## C10: a failing copy poisons its whole content group -/

/-- C10: the digest is inserted into `seen_hashes` (line 109) before
`shutil.copy2` runs (line 116); so when the first-processed file of a
content group fails to copy it is counted as one error, every later
byte-identical candidate is counted as a duplicate and not copied, nothing
of the group is accepted, and the content is absent from the destination. -/
theorem C10_copyfail_poisons_group (H : List Nat → String) (label : Label)
    (stats : Stats) (files : List Candidate) (v : List Nat)
    (c₀ : Candidate) (g' : List Candidate)
    (hgrp : ∀ c ∈ files, c.content = v → is_pe_file c = true ∧ c.hashReadOk = true)
    (hinj : ∀ c ∈ files, get_file_hash H c.content = get_file_hash H v → c.content = v)
    (hhead : files.filter (fun c => c.content == v) = c₀ :: g')
    (hfail : c₀.copyOk = false) :
    countGroupOutcome H label v Outcome.errored ⟨stats, [], []⟩ files = 1
    ∧ countGroupOutcome H label v Outcome.duplicate ⟨stats, [], []⟩ files
        = (c₀ :: g').length - 1
    ∧ countGroupOutcome H label v Outcome.accepted ⟨stats, [], []⟩ files = 0
    ∧ destCountL v (organize_samples H label true files ⟨stats, []⟩).dest = 0 := by
  have hfresh : get_file_hash H v ∉ (([] : List String)) := List.not_mem_nil _
  obtain ⟨hA, hE, hD, hDest⟩ :=
    run_group_fresh H label v files ⟨stats, [], []⟩ hfresh hgrp hinj
  have hge : groupErr (files.filter (fun c => c.content == v)) = 1 := by
    rw [hhead]
    simp [groupErr, hfail]
  have hga : groupAcc (files.filter (fun c => c.content == v)) = 0 := by
    rw [hhead]
    simp [groupAcc, hfail]
  have hfe : files.isEmpty = false := by
    cases files with
    | nil => simp at hhead
    | cons a l => rfl
  refine ⟨?_, ?_, ?_, ?_⟩
  · rw [hE, hge]
  · rw [hD, hhead]
  · rw [hA, hga]
  · simp only [organize_samples, hfe]
    simp only [Bool.false_eq_true, if_false, Bool.true_eq_false]
    rw [hDest, hga]
    rfl

/-- C10 witness: the first of two byte-identical files fails its copy; the
second — although perfectly copyable — is dismissed as a duplicate and the
content reaches the destination zero times. -/
theorem C10_copyfail_poisons_group_witness :
    ([Candidate.mk "a.exe" [77, 90, 9] true true false,
      Candidate.mk "b.exe" [77, 90, 9] true true true].filter
        (fun c => c.content == [77, 90, 9]))
      = [Candidate.mk "a.exe" [77, 90, 9] true true false,
         Candidate.mk "b.exe" [77, 90, 9] true true true]
    ∧ (Candidate.mk "a.exe" [77, 90, 9] true true false).copyOk = false
    ∧ (countGroupOutcome Hc Label.malware [77, 90, 9] Outcome.errored ⟨⟨0, 0, 0, 0⟩, [], []⟩
        [Candidate.mk "a.exe" [77, 90, 9] true true false,
         Candidate.mk "b.exe" [77, 90, 9] true true true] = 1
      ∧ countGroupOutcome Hc Label.malware [77, 90, 9] Outcome.duplicate ⟨⟨0, 0, 0, 0⟩, [], []⟩
          [Candidate.mk "a.exe" [77, 90, 9] true true false,
           Candidate.mk "b.exe" [77, 90, 9] true true true]
        = [Candidate.mk "a.exe" [77, 90, 9] true true false,
           Candidate.mk "b.exe" [77, 90, 9] true true true].length - 1
      ∧ countGroupOutcome Hc Label.malware [77, 90, 9] Outcome.accepted ⟨⟨0, 0, 0, 0⟩, [], []⟩
          [Candidate.mk "a.exe" [77, 90, 9] true true false,
           Candidate.mk "b.exe" [77, 90, 9] true true true] = 0
      ∧ destCountL [77, 90, 9] (organize_samples Hc Label.malware true
          [Candidate.mk "a.exe" [77, 90, 9] true true false,
           Candidate.mk "b.exe" [77, 90, 9] true true true] ⟨⟨0, 0, 0, 0⟩, []⟩).dest = 0) :=
  ⟨by decide, by decide,
   C10_copyfail_poisons_group Hc Label.malware ⟨0, 0, 0, 0⟩
     [Candidate.mk "a.exe" [77, 90, 9] true true false,
      Candidate.mk "b.exe" [77, 90, 9] true true true] [77, 90, 9]
     (Candidate.mk "a.exe" [77, 90, 9] true true false)
     [Candidate.mk "b.exe" [77, 90, 9] true true true]
     (by decide) (by decide) (by decide) (by decide)⟩

/-- One intake call accepts a nonempty all-processable content group exactly
once and adds exactly one destination file with that content, whatever was
already in the destination. -/
theorem call_accepts_group_once (H : List Nat → String) (label : Label)
    (stats : Stats) (dest0 : List (String × List Nat))
    (files : List Candidate) (v : List Nat)
    (hgrp : ∀ c ∈ files, c.content = v →
      is_pe_file c = true ∧ c.hashReadOk = true ∧ c.copyOk = true)
    (hinj : ∀ c ∈ files, get_file_hash H c.content = get_file_hash H v → c.content = v)
    (hne : 1 ≤ (files.filter (fun c => c.content == v)).length) :
    countGroupOutcome H label v Outcome.accepted ⟨stats, [], dest0⟩ files = 1
    ∧ (organize_samples H label true files ⟨stats, dest0⟩).dest
        = (runIntake H label ⟨stats, [], dest0⟩ files).dest
    ∧ destCountL v (runIntake H label ⟨stats, [], dest0⟩ files).dest
        = destCountL v dest0 + 1 := by
  have hgrpw : ∀ c ∈ files, c.content = v → is_pe_file c = true ∧ c.hashReadOk = true :=
    fun c hc hv => ⟨(hgrp c hc hv).1, (hgrp c hc hv).2.1⟩
  have hfresh : get_file_hash H v ∉ (([] : List String)) := List.not_mem_nil _
  obtain ⟨hA, hE, hD, hDest⟩ :=
    run_group_fresh H label v files ⟨stats, [], dest0⟩ hfresh hgrpw hinj
  rcases hg : files.filter (fun c => c.content == v) with _ | ⟨c₀, g'⟩
  · rw [hg] at hne
    simp at hne
  · have hc₀mem : c₀ ∈ files.filter (fun c => c.content == v) := by
      rw [hg]
      exact List.mem_cons_self _ _
    have hc₀ := List.mem_filter.mp hc₀mem
    have hc₀v : c₀.content = v := by simpa using hc₀.2
    have hcopy : c₀.copyOk = true := (hgrp c₀ hc₀.1 hc₀v).2.2
    have hga : groupAcc (files.filter (fun c => c.content == v)) = 1 := by
      rw [hg]
      simp [groupAcc, hcopy]
    have hfe : files.isEmpty = false := by
      cases files with
      | nil => simp at hg
      | cons a l => rfl
    refine ⟨?_, ?_, ?_⟩
    · rw [hA, hga]
    · simp only [organize_samples, hfe]
      simp only [Bool.false_eq_true, if_false, Bool.true_eq_false]
    · rw [hDest, hga]

/-! ## C6: deduplication is label-scoped, not global -/

/-- C6: `seen_hashes` is created afresh at the start of each call (line 83)
and never crosses labels: content `v` present with a nonempty
all-processable group in both the malware-labelled call and the
benign-labelled call that follows it is accepted once in each call — the
second call starting from an empty seen-digest set, as its initial state
shows — and the shared destination ends up with two files carrying `v`. -/
theorem C6_label_scoped_dedup (H : List Nat → String)
    (filesM filesB : List Candidate) (v : List Nat) (stats : Stats)
    (hgM : ∀ c ∈ filesM, c.content = v →
      is_pe_file c = true ∧ c.hashReadOk = true ∧ c.copyOk = true)
    (hgB : ∀ c ∈ filesB, c.content = v →
      is_pe_file c = true ∧ c.hashReadOk = true ∧ c.copyOk = true)
    (hinjM : ∀ c ∈ filesM, get_file_hash H c.content = get_file_hash H v → c.content = v)
    (hinjB : ∀ c ∈ filesB, get_file_hash H c.content = get_file_hash H v → c.content = v)
    (hneM : 1 ≤ (filesM.filter (fun c => c.content == v)).length)
    (hneB : 1 ≤ (filesB.filter (fun c => c.content == v)).length) :
    countGroupOutcome H Label.malware v Outcome.accepted ⟨stats, [], []⟩ filesM = 1
    ∧ countGroupOutcome H Label.benign v Outcome.accepted
        ⟨(organize_samples H Label.malware true filesM ⟨stats, []⟩).stats, [],
         (organize_samples H Label.malware true filesM ⟨stats, []⟩).dest⟩ filesB = 1
    ∧ destCountL v (organize_samples H Label.benign true filesB
        (organize_samples H Label.malware true filesM ⟨stats, []⟩)).dest = 2 := by
  obtain ⟨hM1, hMdest, hMcount⟩ :=
    call_accepts_group_once H Label.malware stats [] filesM v hgM hinjM hneM
  obtain ⟨hB1, hBdest, hBcount⟩ :=
    call_accepts_group_once H Label.benign
      (organize_samples H Label.malware true filesM ⟨stats, []⟩).stats
      (organize_samples H Label.malware true filesM ⟨stats, []⟩).dest
      filesB v hgB hinjB hneB
  refine ⟨hM1, hB1, ?_⟩
  have hos1 : destCountL v (organize_samples H Label.malware true filesM ⟨stats, []⟩).dest = 1 := by
    rw [hMdest, hMcount]
    rfl
  have : organize_samples H Label.benign true filesB
      (organize_samples H Label.malware true filesM ⟨stats, []⟩)
      = organize_samples H Label.benign true filesB
          ⟨(organize_samples H Label.malware true filesM ⟨stats, []⟩).stats,
           (organize_samples H Label.malware true filesM ⟨stats, []⟩).dest⟩ := rfl
  rw [this, hBdest, hBcount, hos1]

/-- C6 witness: the same content in a malware-labelled and a
benign-labelled call, accepted by both, two destination files. -/
theorem C6_label_scoped_dedup_witness :
    1 ≤ ([Candidate.mk "m.exe" [77, 90, 3] true true true].filter
          (fun c => c.content == [77, 90, 3])).length
    ∧ 1 ≤ ([Candidate.mk "b.exe" [77, 90, 3] true true true].filter
          (fun c => c.content == [77, 90, 3])).length
    ∧ (countGroupOutcome Hc Label.malware [77, 90, 3] Outcome.accepted ⟨⟨0, 0, 0, 0⟩, [], []⟩
          [Candidate.mk "m.exe" [77, 90, 3] true true true] = 1
      ∧ countGroupOutcome Hc Label.benign [77, 90, 3] Outcome.accepted
          ⟨(organize_samples Hc Label.malware true
              [Candidate.mk "m.exe" [77, 90, 3] true true true] ⟨⟨0, 0, 0, 0⟩, []⟩).stats, [],
           (organize_samples Hc Label.malware true
              [Candidate.mk "m.exe" [77, 90, 3] true true true] ⟨⟨0, 0, 0, 0⟩, []⟩).dest⟩
          [Candidate.mk "b.exe" [77, 90, 3] true true true] = 1
      ∧ destCountL [77, 90, 3] (organize_samples Hc Label.benign true
          [Candidate.mk "b.exe" [77, 90, 3] true true true]
          (organize_samples Hc Label.malware true
            [Candidate.mk "m.exe" [77, 90, 3] true true true] ⟨⟨0, 0, 0, 0⟩, []⟩)).dest = 2) :=
  ⟨by decide, by decide,
   C6_label_scoped_dedup Hc
     [Candidate.mk "m.exe" [77, 90, 3] true true true]
     [Candidate.mk "b.exe" [77, 90, 3] true true true]
     [77, 90, 3] ⟨0, 0, 0, 0⟩
     (by decide) (by decide) (by decide) (by decide) (by decide) (by decide)⟩

/-! ## C4: filename digest prefix round-trips -/

/-- The only destination entry one step can add is the processed file's
content under its hash-prefixed name (lines 111-116). -/
theorem dest_processFile_cases (H : List Nat → String) (label : Label)
    (s : IntakeState) (c : Candidate) (p : String × List Nat)
    (hp : p ∈ (processFile H label s c).1.dest) :
    p ∈ s.dest ∨ p = (destName label (get_file_hash H c.content) c.name, c.content) := by
  rcases h1 : is_pe_file c with _ | _
  · rw [processFile_rejected H label s c h1] at hp; exact Or.inl hp
  · rcases h2 : c.hashReadOk with _ | _
    · rw [processFile_hashfail H label s c h1 h2] at hp; exact Or.inl hp
    · by_cases h3 : get_file_hash H c.content ∈ s.seen
      · rw [processFile_dup H label s c h1 h2 h3] at hp; exact Or.inl hp
      · rcases h4 : c.copyOk with _ | _
        · rw [processFile_copyfail H label s c h1 h2 h3 h4] at hp; exact Or.inl hp
        · rw [processFile_accepted H label s c h1 h2 h3 h4] at hp
          rcases List.mem_cons.mp hp with h | h
          · exact Or.inr h
          · exact Or.inl h

/-- Every destination entry produced by the loop carries a name of the
shape `<label>_<digest16 of its own content>_<original name>`. -/
theorem runIntake_dest_shape (H : List Nat → String) (label : Label) :
    ∀ (files : List Candidate) (s : IntakeState),
    ∀ p ∈ (runIntake H label s files).dest,
    p ∈ s.dest
    ∨ ∃ orig, p.1 = label.str ++ "_" ++ (get_file_hash H p.2).take 16 ++ "_" ++ orig := by
  intro files
  induction files with
  | nil =>
    intro s p hp
    exact Or.inl hp
  | cons c cs ih =>
    intro s p hp
    simp only [runIntake] at hp
    rcases ih (processFile H label s c).1 p hp with h | h
    · rcases dest_processFile_cases H label s c p h with h | h
      · exact Or.inl h
      · subst h
        exact Or.inr ⟨c.name, rfl⟩
    · exact Or.inr h

/-- C4: for every file accepted into the destination by an intake call,
the 16-character digest segment embedded in its destination filename
equals the first 16 characters of the digest recomputed, by the same
hashing function, from the destination file's own content. -/
theorem C4_filename_digest_roundtrip (H : List Nat → String) (label : Label)
    (stats : Stats) (files : List Candidate) (p : String × List Nat)
    (hp : p ∈ (organize_samples H label true files ⟨stats, []⟩).dest) :
    ∃ orig, p.1 = label.str ++ "_" ++ (get_file_hash H p.2).take 16 ++ "_" ++ orig := by
  rcases files with _ | ⟨c, cs⟩
  · simp [organize_samples] at hp
  · have hdef : (organize_samples H label true (c :: cs) ⟨stats, []⟩).dest
        = (runIntake H label ⟨stats, [], []⟩ (c :: cs)).dest := rfl
    rw [hdef] at hp
    rcases runIntake_dest_shape H label (c :: cs) ⟨stats, [], []⟩ p hp with h | h
    · simp at h
    · exact h

/-- C4 witness: one accepted file, its destination name recomputed from
the destination content. -/
theorem C4_filename_digest_roundtrip_witness :
    ((destName Label.malware (get_file_hash Hc [77, 90, 7]) "a.exe", ([77, 90, 7] : List Nat))
        ∈ (organize_samples Hc Label.malware true
            [Candidate.mk "a.exe" [77, 90, 7] true true true] ⟨⟨0, 0, 0, 0⟩, []⟩).dest)
    ∧ ∃ orig,
        (destName Label.malware (get_file_hash Hc [77, 90, 7]) "a.exe", ([77, 90, 7] : List Nat)).1
          = Label.malware.str ++ "_"
            ++ (get_file_hash Hc (destName Label.malware (get_file_hash Hc [77, 90, 7]) "a.exe",
                  ([77, 90, 7] : List Nat)).2).take 16
            ++ "_" ++ orig :=
  ⟨by decide,
   C4_filename_digest_roundtrip Hc Label.malware ⟨0, 0, 0, 0⟩
     [Candidate.mk "a.exe" [77, 90, 7] true true true]
     (destName Label.malware (get_file_hash Hc [77, 90, 7]) "a.exe", ([77, 90, 7] : List Nat))
     (by decide)⟩

/-! ## C9: determinism of statistics and accepted digests -/

/-- Observational equivalence of two intake states: equal statistics, the
same set of seen digests, and the same set of digests present in the
destination. -/
def stateEquiv (H : List Nat → String) (s1 s2 : IntakeState) : Prop :=
  s1.stats = s2.stats
  ∧ (∀ d, d ∈ s1.seen ↔ d ∈ s2.seen)
  ∧ (∀ d, (∃ p ∈ s1.dest, get_file_hash H p.2 = d) ↔ (∃ p ∈ s2.dest, get_file_hash H p.2 = d))

theorem stateEquiv_refl (H : List Nat → String) (s : IntakeState) : stateEquiv H s s :=
  ⟨rfl, fun _ => Iff.rfl, fun _ => Iff.rfl⟩

theorem stateEquiv_trans {H : List Nat → String} {s1 s2 s3 : IntakeState}
    (h12 : stateEquiv H s1 s2) (h23 : stateEquiv H s2 s3) : stateEquiv H s1 s3 :=
  ⟨h12.1.trans h23.1, fun d => (h12.2.1 d).trans (h23.2.1 d),
   fun d => (h12.2.2 d).trans (h23.2.2 d)⟩

theorem mem_cons_equiv {α : Type} (a : α) {l1 l2 : List α}
    (h : ∀ d, d ∈ l1 ↔ d ∈ l2) : ∀ d : α, d ∈ a :: l1 ↔ d ∈ a :: l2 := by
  intro d
  simp only [List.mem_cons]
  rw [h d]

theorem exists_cons_equiv {α β : Type} (f : α → β) (e : α) {l1 l2 : List α}
    (h : ∀ d, (∃ p ∈ l1, f p = d) ↔ (∃ p ∈ l2, f p = d)) :
    ∀ d, (∃ p ∈ e :: l1, f p = d) ↔ (∃ p ∈ e :: l2, f p = d) := by
  intro d
  simp only [List.mem_cons]
  constructor
  · rintro ⟨p, hp | hp, hf⟩
    · exact ⟨p, Or.inl hp, hf⟩
    · obtain ⟨q, hq, hfq⟩ := (h d).mp ⟨p, hp, hf⟩
      exact ⟨q, Or.inr hq, hfq⟩
  · rintro ⟨p, hp | hp, hf⟩
    · exact ⟨p, Or.inl hp, hf⟩
    · obtain ⟨q, hq, hfq⟩ := (h d).mpr ⟨p, hp, hf⟩
      exact ⟨q, Or.inr hq, hfq⟩

theorem exists_cons_same {α β : Type} (f : α → β) {e1 e2 : α} (hf : f e1 = f e2)
    (l : List α) :
    ∀ d, (∃ p ∈ e1 :: l, f p = d) ↔ (∃ p ∈ e2 :: l, f p = d) := by
  intro d
  simp only [List.mem_cons]
  constructor
  · rintro ⟨p, hp | hp, hfp⟩
    · exact ⟨e2, Or.inl rfl, by rw [← hf, ← hp, hfp]⟩
    · exact ⟨p, Or.inr hp, hfp⟩
  · rintro ⟨p, hp | hp, hfp⟩
    · exact ⟨e1, Or.inl rfl, by rw [hf, ← hp, hfp]⟩
    · exact ⟨p, Or.inr hp, hfp⟩

theorem exists_cons_swap {α β : Type} (f : α → β) (e1 e2 : α) (l : List α) :
    ∀ d, (∃ p ∈ e1 :: e2 :: l, f p = d) ↔ (∃ p ∈ e2 :: e1 :: l, f p = d) := by
  intro d
  simp only [List.mem_cons]
  constructor
  · rintro ⟨p, hp | hp | hp, hfp⟩
    · exact ⟨p, Or.inr (Or.inl hp), hfp⟩
    · exact ⟨p, Or.inl hp, hfp⟩
    · exact ⟨p, Or.inr (Or.inr hp), hfp⟩
  · rintro ⟨p, hp | hp | hp, hfp⟩
    · exact ⟨p, Or.inr (Or.inl hp), hfp⟩
    · exact ⟨p, Or.inl hp, hfp⟩
    · exact ⟨p, Or.inr (Or.inr hp), hfp⟩

theorem mem_cons_swap {α : Type} (a b : α) (l : List α) :
    ∀ d : α, d ∈ a :: b :: l ↔ d ∈ b :: a :: l := by
  intro d
  simp only [List.mem_cons]
  tauto

/-- One loop step sends observationally equivalent states to
observationally equivalent states. -/
theorem processFile_equiv (H : List Nat → String) (label : Label)
    {s1 s2 : IntakeState} (c : Candidate) (h : stateEquiv H s1 s2) :
    stateEquiv H (processFile H label s1 c).1 (processFile H label s2 c).1 := by
  obtain ⟨hst, hseen, hdest⟩ := h
  rcases h1 : is_pe_file c with _ | _
  · rw [processFile_rejected H label s1 c h1, processFile_rejected H label s2 c h1]
    exact ⟨by rw [hst], hseen, hdest⟩
  · rcases h2 : c.hashReadOk with _ | _
    · rw [processFile_hashfail H label s1 c h1 h2, processFile_hashfail H label s2 c h1 h2]
      exact ⟨by rw [hst], hseen, hdest⟩
    · by_cases h3 : get_file_hash H c.content ∈ s1.seen
      · have h3' : get_file_hash H c.content ∈ s2.seen := (hseen _).mp h3
        rw [processFile_dup H label s1 c h1 h2 h3, processFile_dup H label s2 c h1 h2 h3']
        exact ⟨by rw [hst], hseen, hdest⟩
      · have h3' : get_file_hash H c.content ∉ s2.seen := fun hm => h3 ((hseen _).mpr hm)
        rcases h4 : c.copyOk with _ | _
        · rw [processFile_copyfail H label s1 c h1 h2 h3 h4,
              processFile_copyfail H label s2 c h1 h2 h3' h4]
          exact ⟨by rw [hst], mem_cons_equiv _ hseen, hdest⟩
        · rw [processFile_accepted H label s1 c h1 h2 h3 h4,
              processFile_accepted H label s2 c h1 h2 h3' h4]
          exact ⟨by rw [hst], mem_cons_equiv _ hseen,
                 exists_cons_equiv (fun p : String × List Nat => get_file_hash H p.2) _ hdest⟩

/-- The whole loop preserves observational equivalence. -/
theorem runIntake_equiv (H : List Nat → String) (label : Label) :
    ∀ (files : List Candidate) {s1 s2 : IntakeState}, stateEquiv H s1 s2 →
    stateEquiv H (runIntake H label s1 files) (runIntake H label s2 files) := by
  intro files
  induction files with
  | nil => intro s1 s2 h; exact h
  | cons c cs ih =>
    intro s1 s2 h
    exact ih (processFile_equiv H label c h)

/-- State change of an error-counted step (invalid signature or failed
hash read): one more error, nothing else. -/
def errStep (s : IntakeState) : IntakeState :=
  { s with stats := { s.stats with errors := s.stats.errors + 1 } }

/-- State change of a duplicate step: one more duplicate, nothing else. -/
def dupStep (s : IntakeState) : IntakeState :=
  { s with stats := { s.stats with duplicates := s.stats.duplicates + 1 } }

/-- State change of an accepting step: digest recorded, file copied, label
counter bumped. -/
def accStep (H : List Nat → String) (label : Label) (s : IntakeState)
    (c : Candidate) : IntakeState :=
  { s with seen := get_file_hash H c.content :: s.seen,
           stats := s.stats.incLabel label,
           dest := (destName label (get_file_hash H c.content) c.name, c.content) :: s.dest }

/-- Both failure gates before the duplicate test change the state the same
way: one more error. -/
theorem processFile_errorstep (H : List Nat → String) (label : Label)
    (s : IntakeState) (c : Candidate)
    (h : is_pe_file c = false ∨ c.hashReadOk = false) :
    (processFile H label s c).1 = errStep s := by
  rcases h with h | h
  · rw [processFile_rejected H label s c h]
    rfl
  · rcases h1 : is_pe_file c with _ | _
    · rw [processFile_rejected H label s c h1]
      rfl
    · rw [processFile_hashfail H label s c h1 h]
      rfl

/-- State form of the duplicate branch. -/
theorem processFile_dupstep (H : List Nat → String) (label : Label)
    (s : IntakeState) (c : Candidate) (h1 : is_pe_file c = true)
    (h2 : c.hashReadOk = true) (h3 : get_file_hash H c.content ∈ s.seen) :
    (processFile H label s c).1 = dupStep s := by
  rw [processFile_dup H label s c h1 h2 h3]
  rfl

/-- State form of the accepting branch. -/
theorem processFile_accstep (H : List Nat → String) (label : Label)
    (s : IntakeState) (c : Candidate) (h1 : is_pe_file c = true)
    (h2 : c.hashReadOk = true) (h3 : get_file_hash H c.content ∉ s.seen)
    (h4 : c.copyOk = true) :
    (processFile H label s c).1 = accStep H label s c := by
  rw [processFile_accepted H label s c h1 h2 h3 h4]
  rfl

/-- Processing two adjacent candidates in either order yields
observationally equivalent states, provided neither copy fails. -/
theorem swap_processFile (H : List Nat → String) (label : Label)
    (s : IntakeState) (c1 c2 : Candidate)
    (k1 : c1.copyOk = true) (k2 : c2.copyOk = true) :
    stateEquiv H (processFile H label (processFile H label s c1).1 c2).1
                 (processFile H label (processFile H label s c2).1 c1).1 := by
  by_cases hE1 : is_pe_file c1 = false ∨ c1.hashReadOk = false
  · by_cases hE2 : is_pe_file c2 = false ∨ c2.hashReadOk = false
    · rw [processFile_errorstep H label s c1 hE1,
          processFile_errorstep H label (errStep s) c2 hE2,
          processFile_errorstep H label s c2 hE2,
          processFile_errorstep H label (errStep s) c1 hE1]
      exact stateEquiv_refl H _
    · have h2pe : is_pe_file c2 = true := by
        rcases hx : is_pe_file c2 with _ | _
        · exact absurd (Or.inl hx) hE2
        · rfl
      have h2h : c2.hashReadOk = true := by
        rcases hx : c2.hashReadOk with _ | _
        · exact absurd (Or.inr hx) hE2
        · rfl
      by_cases m2 : get_file_hash H c2.content ∈ s.seen
      · rw [processFile_errorstep H label s c1 hE1,
            processFile_dupstep H label (errStep s) c2 h2pe h2h m2,
            processFile_dupstep H label s c2 h2pe h2h m2,
            processFile_errorstep H label (dupStep s) c1 hE1]
        exact stateEquiv_refl H _
      · rw [processFile_errorstep H label s c1 hE1,
            processFile_accstep H label (errStep s) c2 h2pe h2h m2 k2,
            processFile_accstep H label s c2 h2pe h2h m2 k2,
            processFile_errorstep H label (accStep H label s c2) c1 hE1]
        cases label
        · exact stateEquiv_refl H _
        · exact stateEquiv_refl H _
  · have h1pe : is_pe_file c1 = true := by
      rcases hx : is_pe_file c1 with _ | _
      · exact absurd (Or.inl hx) hE1
      · rfl
    have h1h : c1.hashReadOk = true := by
      rcases hx : c1.hashReadOk with _ | _
      · exact absurd (Or.inr hx) hE1
      · rfl
    by_cases hE2 : is_pe_file c2 = false ∨ c2.hashReadOk = false
    · by_cases m1 : get_file_hash H c1.content ∈ s.seen
      · rw [processFile_dupstep H label s c1 h1pe h1h m1,
            processFile_errorstep H label (dupStep s) c2 hE2,
            processFile_errorstep H label s c2 hE2,
            processFile_dupstep H label (errStep s) c1 h1pe h1h m1]
        exact stateEquiv_refl H _
      · rw [processFile_accstep H label s c1 h1pe h1h m1 k1,
            processFile_errorstep H label (accStep H label s c1) c2 hE2,
            processFile_errorstep H label s c2 hE2,
            processFile_accstep H label (errStep s) c1 h1pe h1h m1 k1]
        cases label
        · exact stateEquiv_refl H _
        · exact stateEquiv_refl H _
    · have h2pe : is_pe_file c2 = true := by
        rcases hx : is_pe_file c2 with _ | _
        · exact absurd (Or.inl hx) hE2
        · rfl
      have h2h : c2.hashReadOk = true := by
        rcases hx : c2.hashReadOk with _ | _
        · exact absurd (Or.inr hx) hE2
        · rfl
      by_cases m1 : get_file_hash H c1.content ∈ s.seen
      · by_cases m2 : get_file_hash H c2.content ∈ s.seen
        · rw [processFile_dupstep H label s c1 h1pe h1h m1,
              processFile_dupstep H label (dupStep s) c2 h2pe h2h m2,
              processFile_dupstep H label s c2 h2pe h2h m2,
              processFile_dupstep H label (dupStep s) c1 h1pe h1h m1]
          exact stateEquiv_refl H _
        · rw [processFile_dupstep H label s c1 h1pe h1h m1,
              processFile_accstep H label (dupStep s) c2 h2pe h2h m2 k2,
              processFile_accstep H label s c2 h2pe h2h m2 k2,
              processFile_dupstep H label (accStep H label s c2) c1 h1pe h1h
                (List.mem_cons_of_mem _ m1)]
          cases label
          · exact stateEquiv_refl H _
          · exact stateEquiv_refl H _
      · by_cases m2 : get_file_hash H c2.content ∈ s.seen
        · rw [processFile_accstep H label s c1 h1pe h1h m1 k1,
              processFile_dupstep H label (accStep H label s c1) c2 h2pe h2h
                (List.mem_cons_of_mem _ m2),
              processFile_dupstep H label s c2 h2pe h2h m2,
              processFile_accstep H label (dupStep s) c1 h1pe h1h m1 k1]
          cases label
          · exact stateEquiv_refl H _
          · exact stateEquiv_refl H _
        · by_cases heq : get_file_hash H c1.content = get_file_hash H c2.content
          · rw [processFile_accstep H label s c1 h1pe h1h m1 k1,
                processFile_dupstep H label (accStep H label s c1) c2 h2pe h2h
                  (List.mem_cons.mpr (Or.inl heq.symm)),
                processFile_accstep H label s c2 h2pe h2h m2 k2,
                processFile_dupstep H label (accStep H label s c2) c1 h1pe h1h
                  (List.mem_cons.mpr (Or.inl heq))]
            refine ⟨rfl, ?_, ?_⟩
            · intro d
              show d ∈ get_file_hash H c1.content :: s.seen
                ↔ d ∈ get_file_hash H c2.content :: s.seen
              rw [heq]
            · exact exists_cons_same (fun p : String × List Nat => get_file_hash H p.2)
                heq s.dest
          · have m2' : get_file_hash H c2.content ∉ get_file_hash H c1.content :: s.seen := by
              intro hm
              rcases List.mem_cons.mp hm with hm | hm
              · exact heq hm.symm
              · exact m2 hm
            have m1' : get_file_hash H c1.content ∉ get_file_hash H c2.content :: s.seen := by
              intro hm
              rcases List.mem_cons.mp hm with hm | hm
              · exact heq hm
              · exact m1 hm
            rw [processFile_accstep H label s c1 h1pe h1h m1 k1,
                processFile_accstep H label (accStep H label s c1) c2 h2pe h2h m2' k2,
                processFile_accstep H label s c2 h2pe h2h m2 k2,
                processFile_accstep H label (accStep H label s c2) c1 h1pe h1h m1' k1]
            refine ⟨rfl, ?_, ?_⟩
            · exact mem_cons_swap _ _ _
            · exact exists_cons_swap (fun p : String × List Nat => get_file_hash H p.2) _ _ _

/-- Runs over permuted candidate lists (no failing copies) are
observationally equivalent: same statistics, same seen digests, same
destination digests. -/
theorem runIntake_perm (H : List Nat → String) (label : Label)
    {l1 l2 : List Candidate} (hperm : l1.Perm l2) :
    ∀ s : IntakeState, (∀ c ∈ l1, c.copyOk = true) →
    stateEquiv H (runIntake H label s l1) (runIntake H label s l2) := by
  induction hperm with
  | nil =>
    intro s _
    exact stateEquiv_refl H _
  | cons x p ih =>
    intro s hok
    simp only [runIntake]
    exact ih (processFile H label s x).1 (fun c hc => hok c (List.mem_cons_of_mem _ hc))
  | swap x y l =>
    intro s hok
    simp only [runIntake]
    have ky : y.copyOk = true := hok y (List.mem_cons_self _ _)
    have kx : x.copyOk = true := hok x (List.mem_cons_of_mem _ (List.mem_cons_self _ _))
    exact runIntake_equiv H label l (swap_processFile H label s y x ky kx)
  | trans p1 p2 ih1 ih2 =>
    intro s hok
    exact stateEquiv_trans (ih1 s hok) (ih2 s (fun c hc => hok c (p1.symm.subset hc)))

/-- C9: two fresh intake calls (fresh seen-digest set, empty destination,
same statistics base) over the same input files — possibly enumerated in
different orders, and none of whose copies fail — produce identical final
statistics and identical sets of accepted content digests; only which
filename won a duplicate group may differ. -/
theorem C9_fresh_run_determinism (H : List Nat → String) (label : Label)
    (stats : Stats) (files1 files2 : List Candidate)
    (hperm : files1.Perm files2)
    (hok : ∀ c ∈ files1, c.copyOk = true) :
    (organize_samples H label true files1 ⟨stats, []⟩).stats
      = (organize_samples H label true files2 ⟨stats, []⟩).stats
    ∧ ∀ d, ((∃ p ∈ (organize_samples H label true files1 ⟨stats, []⟩).dest,
              get_file_hash H p.2 = d)
        ↔ (∃ p ∈ (organize_samples H label true files2 ⟨stats, []⟩).dest,
              get_file_hash H p.2 = d)) := by
  rcases hf1 : files1 with _ | ⟨c, cs⟩
  · have hf2 : files2 = [] := by
      subst hf1
      exact hperm.symm.eq_nil
    subst hf2
    exact ⟨rfl, fun d => Iff.rfl⟩
  · subst hf1
    rcases hf2 : files2 with _ | ⟨c2, cs2⟩
    · subst hf2
      exact absurd hperm.eq_nil (by simp)
    · subst hf2
      have equiv := runIntake_perm H label hperm ⟨stats, [], []⟩ hok
      exact ⟨equiv.1, equiv.2.2⟩

/-- C9 witness: the same two distinct valid files in both orders. -/
theorem C9_fresh_run_determinism_witness :
    ([Candidate.mk "a.exe" [77, 90, 1] true true true,
      Candidate.mk "b.exe" [77, 90, 2] true true true].Perm
      [Candidate.mk "b.exe" [77, 90, 2] true true true,
       Candidate.mk "a.exe" [77, 90, 1] true true true])
    ∧ ((organize_samples Hc Label.malware true
          [Candidate.mk "a.exe" [77, 90, 1] true true true,
           Candidate.mk "b.exe" [77, 90, 2] true true true] ⟨⟨0, 0, 0, 0⟩, []⟩).stats
        = (organize_samples Hc Label.malware true
            [Candidate.mk "b.exe" [77, 90, 2] true true true,
             Candidate.mk "a.exe" [77, 90, 1] true true true] ⟨⟨0, 0, 0, 0⟩, []⟩).stats
      ∧ ∀ d, ((∃ p ∈ (organize_samples Hc Label.malware true
                [Candidate.mk "a.exe" [77, 90, 1] true true true,
                 Candidate.mk "b.exe" [77, 90, 2] true true true] ⟨⟨0, 0, 0, 0⟩, []⟩).dest,
                get_file_hash Hc p.2 = d)
          ↔ (∃ p ∈ (organize_samples Hc Label.malware true
                [Candidate.mk "b.exe" [77, 90, 2] true true true,
                 Candidate.mk "a.exe" [77, 90, 1] true true true] ⟨⟨0, 0, 0, 0⟩, []⟩).dest,
                get_file_hash Hc p.2 = d))) :=
  ⟨List.Perm.swap (Candidate.mk "b.exe" [77, 90, 2] true true true)
     (Candidate.mk "a.exe" [77, 90, 1] true true true) [],
   C9_fresh_run_determinism Hc Label.malware ⟨0, 0, 0, 0⟩
     [Candidate.mk "a.exe" [77, 90, 1] true true true,
      Candidate.mk "b.exe" [77, 90, 2] true true true]
     [Candidate.mk "b.exe" [77, 90, 2] true true true,
      Candidate.mk "a.exe" [77, 90, 1] true true true]
     (List.Perm.swap (Candidate.mk "b.exe" [77, 90, 2] true true true)
       (Candidate.mk "a.exe" [77, 90, 1] true true true) [])
     (by decide)⟩

/-! ## C8: the metadata write is in place, not atomic -/

/-- Model of the metadata write of `generate_metadata` (lines 140-143):
`open(metadata_file, 'w')` truncates the existing file to empty before
`json.dump(metadata, f, indent=2)` streams the serialized record into it
piece by piece.  `writeStates prior record` lists the observable on-disk
contents in order: the prior record before the call, then — after the
truncating open — every prefix of the new record as the dump progresses,
ending with the complete record.  (File contents are byte lists, as
elsewhere.)  No temporary file and rename is involved in the source. -/
def writeStates (prior record : List Nat) : List (List Nat) :=
  prior :: (List.range (record.length + 1)).map (fun k => record.take k)

/-- C8 counterexample: with a two-byte prior record and a two-byte new
record, the one-byte intermediate state is observable after a failure
partway through the dump, and it is neither the complete new record nor
the prior record — the write is not atomic in effect. -/
theorem C8_counterexample_torn_write :
    ∃ s_1 ∈ writeStates [123, 49] [123, 50],
      ¬ s_1 = [123, 49] ∧ ¬ s_1 = [123, 50] := by
  decide

/-- C8 amended: the write happens in place; a run that completes leaves
the complete new record as the final observable state, but a failure
partway can expose a torn state — every observable state is either the
prior record or some prefix of the new record, and the empty truncated
state is among them, so the prior record is destroyed before the new one
is complete. -/
theorem C8_amended_inplace_write (prior record : List Nat) :
    record ∈ writeStates prior record
    ∧ [] ∈ writeStates prior record
    ∧ ∀ s_1 ∈ writeStates prior record, s_1 = prior ∨ ∃ k, s_1 = record.take k := by
  refine ⟨?_, ?_, ?_⟩
  · exact List.mem_cons_of_mem _ (List.mem_map.mpr
      ⟨record.length, List.mem_range.mpr (Nat.lt_succ_self _), List.take_length record⟩)
  · exact List.mem_cons_of_mem _ (List.mem_map.mpr
      ⟨0, List.mem_range.mpr (Nat.succ_pos _), rfl⟩)
  · intro s_1 hs
    rcases List.mem_cons.mp hs with h | h
    · exact Or.inl h
    · obtain ⟨k, _, hk⟩ := List.mem_map.mp h
      exact Or.inr ⟨k, hk.symm⟩

/-- C8 amended witness: concrete two-byte records. -/
theorem C8_amended_inplace_write_witness :
    ([123, 50] : List Nat) ∈ writeStates [123, 49] [123, 50]
    ∧ ([] : List Nat) ∈ writeStates [123, 49] [123, 50]
    ∧ ∀ s_1 ∈ writeStates [123, 49] [123, 50],
        s_1 = [123, 49] ∨ ∃ k, s_1 = ([123, 50] : List Nat).take k :=
  C8_amended_inplace_write [123, 49] [123, 50]
